import Mathlib

/-!
Verification development for the BrachioGraph pantograph plotter
(`brachiograph.py`).  The Python source is shallowly embedded:

* the path normalizer (`analyse_lines`, `rotate_and_scale_lines`) is
  embedded generically over a linear ordered field, so it can be run
  executably at `ℚ` and instantiated at `ℝ`;
* the kinematics (`xy_to_angles`, `angles_to_xy`) are embedded over `ℝ`
  with Mathlib's trigonometric functions; the Python `raise` on an
  unreachable target becomes an `Option` result;
* the motion code (`Bonnet`, `Pen`, `BrachioGraph.xy`, `plot_lines`,
  `box`, `park`) becomes explicit state passing over a `PState` record
  together with a trace of emitted commands (`Cmd`), with `none`
  modelling a propagating exception.
-/

namespace BrachioGraph

/-! ## List minima and maxima

Python computes `min`/`max` of the set of all coordinate values; over a
list these are left folds of `min`/`max` starting from the first
element.  The `0` result on `[]` is junk (Python raises there). -/

def listMin {α : Type*} [LinearOrderedField α] : List α → α
  | [] => 0
  | a :: as => as.foldl min a

def listMax {α : Type*} [LinearOrderedField α] : List α → α
  | [] => 0
  | a :: as => as.foldl max a

theorem foldl_min_le_init {α : Type*} [LinearOrderedField α] (l : List α) (a : α) :
    l.foldl min a ≤ a := by
  induction l generalizing a with
  | nil => exact le_refl a
  | cons x xs ih => exact le_trans (ih (min a x)) (min_le_left a x)

theorem foldl_min_le_mem {α : Type*} [LinearOrderedField α] {l : List α} {b : α} (a : α)
    (hb : b ∈ l) : l.foldl min a ≤ b := by
  induction l generalizing a with
  | nil => cases hb
  | cons x xs ih =>
    rcases List.mem_cons.mp hb with h | h
    · subst h
      exact le_trans (foldl_min_le_init xs (min a b)) (min_le_right a b)
    · exact ih (min a x) h

theorem init_le_foldl_max {α : Type*} [LinearOrderedField α] (l : List α) (a : α) :
    a ≤ l.foldl max a := by
  induction l generalizing a with
  | nil => exact le_refl a
  | cons x xs ih => exact le_trans (le_max_left a x) (ih (max a x))

theorem mem_le_foldl_max {α : Type*} [LinearOrderedField α] {l : List α} {b : α} (a : α)
    (hb : b ∈ l) : b ≤ l.foldl max a := by
  induction l generalizing a with
  | nil => cases hb
  | cons x xs ih =>
    rcases List.mem_cons.mp hb with h | h
    · subst h
      exact le_trans (le_max_right a b) (init_le_foldl_max xs (max a b))
    · exact ih (max a x) h

theorem listMin_le {α : Type*} [LinearOrderedField α] {l : List α} {b : α} (hb : b ∈ l) :
    listMin l ≤ b := by
  cases l with
  | nil => cases hb
  | cons x xs =>
    rcases List.mem_cons.mp hb with h | h
    · subst h; exact foldl_min_le_init xs b
    · exact foldl_min_le_mem x h

theorem le_listMax {α : Type*} [LinearOrderedField α] {l : List α} {b : α} (hb : b ∈ l) :
    b ≤ listMax l := by
  cases l with
  | nil => cases hb
  | cons x xs =>
    rcases List.mem_cons.mp hb with h | h
    · subst h; exact init_le_foldl_max xs b
    · exact mem_le_foldl_max x h

/-! ## Path normalizer (`BrachioGraph.analyse_lines`, lines 157-224)

A drawing is a list of lines, each line a list of `(x, y)` points.
Bounds are a quadruple `(min_x, min_y, max_x, max_y)`, indexed in the
source as `bounds[0] .. bounds[3]`. -/

/-- The result tuple of `analyse_lines`:
`(rotate, x_mid_point, y_mid_point, box_x_mid_point, box_y_mid_point, divider)`. -/
structure Analysis (α : Type*) where
  rotate : Bool
  x_mid : α
  y_mid : α
  box_x_mid : α
  box_y_mid : α
  divider : α
deriving DecidableEq, Repr

/-- All x values appearing in the drawing (`x_values_in_lines`). -/
def xValues {α : Type*} [LinearOrderedField α] (lines : List (List (α × α))) : List α :=
  lines.flatten.map Prod.fst

/-- All y values appearing in the drawing (`y_values_in_lines`). -/
def yValues {α : Type*} [LinearOrderedField α] (lines : List (List (α × α))) : List α :=
  lines.flatten.map Prod.snd

/-- `BrachioGraph.analyse_lines(lines, rotate, bounds)`.  The `rotate`
parameter is reassigned in both branches of the source before being
returned, so the argument value is dead. -/
def analyse_lines {α : Type*} [LinearOrderedField α]
    (lines : List (List (α × α))) (rotate : Bool) (bounds : α × α × α × α) : Analysis α :=
  let min_x := listMin (xValues lines)
  let max_x := listMax (xValues lines)
  let min_y := listMin (yValues lines)
  let max_y := listMax (yValues lines)
  let x_range := max_x - min_x
  let y_range := max_y - min_y
  let box_x_range := bounds.2.2.1 - bounds.1
  let box_y_range := bounds.2.2.2 - bounds.2.1
  let x_mid_point := (max_x + min_x) / 2
  let y_mid_point := (max_y + min_y) / 2
  let box_x_mid_point := (bounds.1 + bounds.2.2.1) / 2
  let box_y_mid_point := (bounds.2.1 + bounds.2.2.2) / 2
  if (x_range ≥ y_range ∧ box_x_range ≥ box_y_range) ∨
      (x_range ≤ y_range ∧ box_x_range ≤ box_y_range) then
    { rotate := false, x_mid := x_mid_point, y_mid := y_mid_point,
      box_x_mid := box_x_mid_point, box_y_mid := box_y_mid_point,
      divider := max (x_range / box_x_range) (y_range / box_y_range) }
  else
    { rotate := true, x_mid := y_mid_point, y_mid := x_mid_point,
      box_x_mid := box_x_mid_point, box_y_mid := box_y_mid_point,
      divider := max (x_range / box_y_range) (y_range / box_x_range) }

/-- The per-point body of the loop in `rotate_and_scale_lines`
(lines 134-152): optional axis swap, shift by the artwork midpoint,
uniform scale by `divider`, shift by the box midpoint, and an x negation
when `flip XOR rotate`. -/
def transformPoint {α : Type*} [LinearOrderedField α]
    (A : Analysis α) (flip : Bool) (p : α × α) : α × α :=
  let p := if A.rotate then (p.2, p.1) else p
  let x := p.1
  let x := x - A.x_mid
  let x := x / A.divider
  let x := x + A.box_x_mid
  let x := if flip ^^ A.rotate then -x else x
  let y := p.2
  let y := y - A.y_mid
  let y := y / A.divider
  let y := y + A.box_y_mid
  (x, y)

/-- `BrachioGraph.rotate_and_scale_lines(lines, rotate, flip, bounds)`
(lines 129-154).  The Python mutates points in place; here the same
rewrite is a map. -/
def rotate_and_scale_lines {α : Type*} [LinearOrderedField α]
    (lines : List (List (α × α))) (rotate flip : Bool) (bounds : α × α × α × α) :
    List (List (α × α)) :=
  let A := analyse_lines lines rotate bounds
  lines.map fun line => line.map (transformPoint A flip)

/-! ## Kinematics (`xy_to_angles` lines 407-428, `angles_to_xy` lines 431-451)

Angles travel in degrees across the API and in radians internally,
mirroring `math.degrees` / `math.radians`.  The `raise` on an
unreachable target becomes a `none` result. -/

noncomputable def degrees (r : ℝ) : ℝ := r * 180 / Real.pi

noncomputable def radians (d : ℝ) : ℝ := d * Real.pi / 180

/-- The exceptions `xy_to_angles` can raise: the explicit `Cannot
reach` `Exception` of line 414, the `ZeroDivisionError` from
`x / hypotenuse` at the origin, and the `ValueError` (`math domain
error`) that `math.asin`/`math.acos` raise on an argument outside
`[-1, 1]`. -/
inductive KinError where
  | unreachable
  | zeroDivision
  | domain
deriving DecidableEq

/-- `true` iff the kinematics call returned a pair of joint angles. -/
def isAngles {α : Type*} : Except KinError α → Bool
  | .ok _ => true
  | .error _ => false

/-- `BrachioGraph.xy_to_angles(x, y)` for arm lengths `I` (`INNER_ARM`)
and `O` (`OUTER_ARM`).  Mathlib's `Real.arcsin`/`Real.arccos` clamp
out-of-range arguments where Python's `math.asin`/`math.acos` raise
`ValueError`, so each trigonometric call is preceded by the explicit
domain guard (in the source's evaluation order: the division, then
`asin`, then the two `acos` calls). -/
noncomputable def xy_to_angles (I O x y : ℝ) : Except KinError (ℝ × ℝ) :=
  let hypotenuse := Real.sqrt (x ^ 2 + y ^ 2)
  if I + O < hypotenuse then .error .unreachable
  else if hypotenuse = 0 then .error .zeroDivision
  else if x / hypotenuse < -1 ∨ 1 < x / hypotenuse then .error .domain
  else
    let hypotenuse_angle := Real.arcsin (x / hypotenuse)
    if (hypotenuse ^ 2 + I ^ 2 - O ^ 2) / (2 * hypotenuse * I) < -1 ∨
        1 < (hypotenuse ^ 2 + I ^ 2 - O ^ 2) / (2 * hypotenuse * I) then .error .domain
    else
      let inner_angle := Real.arccos ((hypotenuse ^ 2 + I ^ 2 - O ^ 2) / (2 * hypotenuse * I))
      if (I ^ 2 + O ^ 2 - hypotenuse ^ 2) / (2 * I * O) < -1 ∨
          1 < (I ^ 2 + O ^ 2 - hypotenuse ^ 2) / (2 * I * O) then .error .domain
      else
        let outer_angle := Real.arccos ((I ^ 2 + O ^ 2 - hypotenuse ^ 2) / (2 * I * O))
        let shoulder_motor_angle := hypotenuse_angle - inner_angle
        let elbow_motor_angle := Real.pi - outer_angle
        .ok (degrees shoulder_motor_angle, degrees elbow_motor_angle)

/-- The hypotenuse recovered from the elbow angle (in degrees) by the
law of cosines, as computed inside `angles_to_xy`. -/
noncomputable def hypOfElbow (I O elbow : ℝ) : ℝ :=
  Real.sqrt (I ^ 2 + O ^ 2 - 2 * I * O * Real.cos (Real.pi - radians elbow))

/-- The base angle computed inside `angles_to_xy`. -/
noncomputable def baseOfElbow (I O elbow : ℝ) : ℝ :=
  Real.arccos ((hypOfElbow I O elbow ^ 2 + I ^ 2 - O ^ 2) / (2 * hypOfElbow I O elbow * I))

/-- `BrachioGraph.angles_to_xy(shoulder_motor_angle, elbow_motor_angle)`. -/
noncomputable def angles_to_xy (I O shoulder_motor_angle elbow_motor_angle : ℝ) : ℝ × ℝ :=
  let hypotenuse := hypOfElbow I O elbow_motor_angle
  let base_angle := baseOfElbow I O elbow_motor_angle
  let inner_angle := base_angle + radians shoulder_motor_angle
  (Real.sin inner_angle * hypotenuse, Real.cos inner_angle * hypotenuse)

/-! ## Device interface and plotter state

`Bonnet` (lines 11-27) caches the last three commanded angles;
`BrachioGraph` tracks `current_x`/`current_y`.  Effects are modelled as
a trace of commands: each servo write and each `sleep` becomes one
`Cmd`.  A propagating Python exception is `none`. -/

inductive Cmd where
  | setAngle (channel : ℕ) (angle : ℝ)
  | sleep (seconds : ℝ)

/-- Mutable session state: the plotter's Cartesian position and the
Bonnet's `last_angles` cache (channels 0, 1, 2). -/
structure PState where
  current_x : ℝ
  current_y : ℝ
  last0 : ℝ
  last1 : ℝ
  last2 : ℝ

/-- Construction-time configuration: arm lengths, default wait factor,
pen angles, the pen transition time (0.25 in the source), and the
optional bounds rectangle. -/
structure Config where
  inner : ℝ
  outer : ℝ
  wait : ℝ
  angle_up : ℝ
  angle_down : ℝ
  transition_time : ℝ
  bounds : Option (ℝ × ℝ × ℝ × ℝ)

/-- `Bonnet.set_angle(i, a)` (lines 16-20): channel 0 gets the +120
mechanical offset before both the servo write and the cache update. -/
def bonnet_set_angle (s : PState) (i : ℕ) (a : ℝ) : PState × List Cmd :=
  let a := if i = 0 then a + 120 else a
  let s :=
    if i = 0 then { s with last0 := a }
    else if i = 1 then { s with last1 := a }
    else { s with last2 := a }
  (s, [Cmd.setAngle i a])

/-- `Bonnet.get_angles()` (lines 26-27). -/
def bonnet_get_angles (s : PState) : ℝ × ℝ :=
  (s.last0, s.last1)

/-- `Bonnet.set_angles(a0, a1)` (lines 22-24). -/
def bonnet_set_angles (s : PState) (a0 a1 : ℝ) : PState × List Cmd :=
  let r0 := bonnet_set_angle s 0 a0
  let r1 := bonnet_set_angle r0.1 1 a1
  (r1.1, r0.2 ++ r1.2)

/-- `Pen.down()` (lines 551-553): command `angle_down` on pin 2, then
sleep for the transition time. -/
def pen_down (cfg : Config) (s : PState) : PState × List Cmd :=
  let r := bonnet_set_angle s 2 cfg.angle_down
  (r.1, r.2 ++ [Cmd.sleep cfg.transition_time])

/-- `Pen.up()` (lines 555-557). -/
def pen_up (cfg : Config) (s : PState) : PState × List Cmd :=
  let r := bonnet_set_angle s 2 cfg.angle_up
  (r.1, r.2 ++ [Cmd.sleep cfg.transition_time])

/-! ## Motion interpolation (`BrachioGraph.xy`, lines 338-386) -/

/-- Python `int()`: truncation toward zero. -/
noncomputable def pyInt (a : ℝ) : ℤ :=
  if 0 ≤ a then ⌊a⌋ else -⌊-a⌋

/-- The straight-line length of the move (line 363). -/
noncomputable def move_length (cx cy x y : ℝ) : ℝ :=
  Real.sqrt ((x - cx) ^ 2 + (y - cy) ^ 2)

/-- `no_of_steps = int(length * interpolate) or 1` (line 365). -/
noncomputable def no_of_steps (cx cy x y interpolate : ℝ) : ℤ :=
  let t := pyInt (move_length cx cy x y * interpolate)
  if t = 0 then 1 else t

/-- The interpolation loop of `xy` (lines 374-384), recursing on the
number of remaining iterations: advance the position by one step,
convert it to angles (a propagating failure is `none`), dispatch both
servo commands, and sleep the proportional pacing delay except after
the final step. -/
noncomputable def xy_steps (I O step_x step_y length wait : ℝ) (n : ℤ) :
    ℕ → PState → Option (PState × List Cmd)
  | 0, s => some (s, [])
  | k + 1, s =>
    let s1 := { s with current_x := s.current_x + step_x, current_y := s.current_y + step_y }
    match xy_to_angles I O s1.current_x s1.current_y with
    | .error _ => none
    | .ok (a1, a2) =>
      let r := bonnet_set_angles s1 a1 a2
      let pacing : List Cmd := if k = 0 then [] else [Cmd.sleep (length * wait / (n : ℝ))]
      match xy_steps I O step_x step_y length wait n k r.1 with
      | none => none
      | some (s', cs) => some (s', r.2 ++ pacing ++ cs)

/-- `BrachioGraph.xy(x, y, wait, interpolate, draw)` (lines 338-386).
Pen first, then the target angles; if they equal the cached angles the
move is elided (only `current_x`/`current_y` are updated); otherwise
the interpolation loop runs, followed by the settling sleep.  Note that
the final position is reached by accumulating `no_of_steps` deltas —
there is no closing assignment of `(x, y)`. -/
noncomputable def xy (cfg : Config) (s : PState) (x y wait interpolate : ℝ) (draw : Bool) :
    Option (PState × List Cmd) :=
  let wait := if wait = 0 then cfg.wait else wait
  let pen := if draw then pen_down cfg s else pen_up cfg s
  let s := pen.1
  match xy_to_angles cfg.inner cfg.outer x y with
  | .error _ => none
  | .ok (angle_1, angle_2) =>
    if (angle_1, angle_2) = bonnet_get_angles s then
      some ({ s with current_x := x, current_y := y }, pen.2)
    else
      let x_length := x - s.current_x
      let y_length := y - s.current_y
      let length := move_length s.current_x s.current_y x y
      let steps := no_of_steps s.current_x s.current_y x y interpolate
      let length_of_step_x := x_length / (steps : ℝ)
      let length_of_step_y := y_length / (steps : ℝ)
      match xy_steps cfg.inner cfg.outer length_of_step_x length_of_step_y length wait
          steps steps.toNat s with
      | none => none
      | some (s', cs) => some (s', pen.2 ++ cs ++ [Cmd.sleep (length * wait / 10)])

/-- `BrachioGraph.draw(x, y, wait, interpolate)` (lines 122-125). -/
noncomputable def draw (cfg : Config) (s : PState) (x y wait interpolate : ℝ) :
    Option (PState × List Cmd) :=
  let wait := if wait = 0 then cfg.wait else wait
  xy cfg s x y wait interpolate true

/-- `BrachioGraph.park()` (lines 394-397). -/
noncomputable def park (cfg : Config) (s : PState) : Option (PState × List Cmd) :=
  let pen := pen_up cfg s
  match xy cfg pen.1 (-cfg.inner) cfg.outer 0 10 false with
  | none => none
  | some (s', cs) => some (s', pen.2 ++ cs ++ [Cmd.sleep 1])

/-! ## Top-level plotting (`plot_lines` lines 80-101, `box` lines 307-333) -/

/-- Sequencing of two effectful stages, threading the state and
appending the command traces; `none` (an exception) short-circuits. -/
def seqCmds (r : Option (PState × List Cmd)) (f : PState → Option (PState × List Cmd)) :
    Option (PState × List Cmd) :=
  match r with
  | none => none
  | some (s, cs) =>
    match f s with
    | none => none
    | some (s', cs') => some (s', cs ++ cs')

/-- Python `round(v, 1)` on exact values: round-half-to-even at the
first decimal place. -/
noncomputable def roundHalfEven (x : ℝ) : ℤ :=
  if x - ⌊x⌋ < 1 / 2 then ⌊x⌋
  else if 1 / 2 < x - ⌊x⌋ then ⌊x⌋ + 1
  else if ⌊x⌋ % 2 = 0 then ⌊x⌋ else ⌊x⌋ + 1

noncomputable def pyRound1 (x : ℝ) : ℝ :=
  (roundHalfEven (x * 10) : ℝ) / 10

/-- The inner loop of `plot_lines` (lines 97-99): draw each remaining
point of the line. -/
noncomputable def draw_points (cfg : Config) (wait interpolate : ℝ) :
    List (ℝ × ℝ) → PState → Option (PState × List Cmd)
  | [], s => some (s, [])
  | p :: ps, s =>
    seqCmds (draw cfg s p.1 p.2 wait interpolate) (draw_points cfg wait interpolate ps)

/-- One iteration of the outer loop of `plot_lines` (lines 90-99):
travel (pen up) to the start of the line unless already within 0.05 of
it after rounding to one decimal, then draw the rest.  An empty line is
the source's `IndexError` on `line[0]`. -/
noncomputable def plot_line (cfg : Config) (wait interpolate : ℝ)
    (line : List (ℝ × ℝ)) (s : PState) : Option (PState × List Cmd) :=
  match line with
  | [] => none
  | (x, y) :: rest =>
    let first :=
      if (pyRound1 s.current_x, pyRound1 s.current_y) ≠ (pyRound1 x, pyRound1 y) then
        xy cfg s x y wait interpolate false
      else some (s, [])
    seqCmds first (draw_points cfg wait interpolate rest)

noncomputable def plot_each_line (cfg : Config) (wait interpolate : ℝ) :
    List (List (ℝ × ℝ)) → PState → Option (PState × List Cmd)
  | [], s => some (s, [])
  | l :: ls, s =>
    seqCmds (plot_line cfg wait interpolate l s) (plot_each_line cfg wait interpolate ls)

/-- The observable outcome of a top-level plotting call: a refusal
message (returned, not raised, with the state unchanged and the listed
commands — none — issued), normal completion, or a propagating
exception. -/
inductive PlotOutcome where
  | refused (s : PState) (cmds : List Cmd) (message : String)
  | done (s : PState) (cmds : List Cmd)
  | failed

/-- `BrachioGraph.plot_lines(lines, wait, interpolate, rotate, flip,
bounds)` (lines 80-101).  The `rotate` and `flip` parameters are
accepted but never read: normalization is invoked with `flip=True` and
the default `rotate=False`. -/
noncomputable def plot_lines (cfg : Config) (s : PState) (lines : List (List (ℝ × ℝ)))
    (wait interpolate : ℝ) (rotate flip : Bool) (bounds : Option (ℝ × ℝ × ℝ × ℝ)) :
    PlotOutcome :=
  let wait := if wait = 0 then cfg.wait else wait
  let bounds := match bounds with | none => cfg.bounds | some bs => some bs
  match bounds with
  | none => .refused s [] "Line plotting is only possible when BrachioGraph.bounds is set."
  | some bs =>
    let lines := rotate_and_scale_lines lines false true bs
    match seqCmds (plot_each_line cfg wait interpolate lines s) (park cfg) with
    | none => .failed
    | some (s', cs) => .done s' cs

/-- One `repeat` iteration of `box` (lines 317-331). -/
noncomputable def box_loop (cfg : Config) (wait interpolate : ℝ) (reverse : Bool)
    (b : ℝ × ℝ × ℝ × ℝ) : ℕ → PState → Option (PState × List Cmd)
  | 0, s => some (s, [])
  | r + 1, s =>
    let pass :=
      if reverse then
        seqCmds (seqCmds (seqCmds (draw cfg s b.1 b.2.2.2 wait interpolate)
          (fun s1 => draw cfg s1 b.2.2.1 b.2.2.2 wait interpolate))
          (fun s2 => draw cfg s2 b.2.2.1 b.2.1 wait interpolate))
          (fun s3 => draw cfg s3 b.1 b.2.1 wait interpolate)
      else
        seqCmds (seqCmds (seqCmds (draw cfg s b.2.2.1 b.2.1 wait interpolate)
          (fun s1 => draw cfg s1 b.2.2.1 b.2.2.2 wait interpolate))
          (fun s2 => draw cfg s2 b.1 b.2.2.2 wait interpolate))
          (fun s3 => draw cfg s3 b.1 b.2.1 wait interpolate)
    seqCmds pass (box_loop cfg wait interpolate reverse b r)

/-- `BrachioGraph.box(bounds, wait, interpolate, repeat, reverse)`
(lines 307-333). -/
noncomputable def box (cfg : Config) (s : PState) (wait interpolate : ℝ) (repeats : ℕ)
    (reverse : Bool) (bounds : Option (ℝ × ℝ × ℝ × ℝ)) : PlotOutcome :=
  let wait := if wait = 0 then cfg.wait else wait
  let bounds := match bounds with | none => cfg.bounds | some bs => some bs
  match bounds with
  | none => .refused s [] "Box drawing is only possible when BrachioGraph.bounds is set."
  | some b =>
    match seqCmds (seqCmds (xy cfg s b.1 b.2.1 wait interpolate false)
        (box_loop cfg wait interpolate reverse b repeats)) (park cfg) with
    | none => .failed
    | some (s', cs) => .done s' cs

/-! ## Spec-side quantities for the normalizer -/

/-- Artwork x extent, `max_x - min_x`. -/
def xRange {α : Type*} [LinearOrderedField α] (lines : List (List (α × α))) : α :=
  listMax (xValues lines) - listMin (xValues lines)

/-- Artwork y extent, `max_y - min_y`. -/
def yRange {α : Type*} [LinearOrderedField α] (lines : List (List (α × α))) : α :=
  listMax (yValues lines) - listMin (yValues lines)

/-- Artwork x midpoint, `(max_x + min_x) / 2`. -/
def xMid {α : Type*} [LinearOrderedField α] (lines : List (List (α × α))) : α :=
  (listMax (xValues lines) + listMin (xValues lines)) / 2

/-- Artwork y midpoint, `(max_y + min_y) / 2`. -/
def yMid {α : Type*} [LinearOrderedField α] (lines : List (List (α × α))) : α :=
  (listMax (yValues lines) + listMin (yValues lines)) / 2

theorem analyse_lines_eq_ite {α : Type*} [LinearOrderedField α]
    (lines : List (List (α × α))) (r : Bool) (b : α × α × α × α) :
    analyse_lines lines r b =
      if (xRange lines ≥ yRange lines ∧ b.2.2.1 - b.1 ≥ b.2.2.2 - b.2.1) ∨
          (xRange lines ≤ yRange lines ∧ b.2.2.1 - b.1 ≤ b.2.2.2 - b.2.1) then
        { rotate := false, x_mid := xMid lines, y_mid := yMid lines,
          box_x_mid := (b.1 + b.2.2.1) / 2, box_y_mid := (b.2.1 + b.2.2.2) / 2,
          divider := max (xRange lines / (b.2.2.1 - b.1)) (yRange lines / (b.2.2.2 - b.2.1)) }
      else
        { rotate := true, x_mid := yMid lines, y_mid := xMid lines,
          box_x_mid := (b.1 + b.2.2.1) / 2, box_y_mid := (b.2.1 + b.2.2.2) / 2,
          divider := max (xRange lines / (b.2.2.2 - b.2.1)) (yRange lines / (b.2.2.1 - b.1)) } := by
  simp only [analyse_lines, xRange, yRange, xMid, yMid]

/-! ## C4, C9, C10 -/

/-- C4: for every drawing and bounds, `analyse_lines` returns
`rotate = false` with `divider = max (x_range / box_x_range)
(y_range / box_y_range)` when artwork and target rectangle share
orientation, and otherwise `rotate = true` with
`divider = max (x_range / box_y_range) (y_range / box_x_range)` and the
artwork midpoints swapped; in particular, artwork with `x_range = 10`,
`y_range = 2` against bounds with `box_x_range = 2`, `box_y_range = 10`
yields `rotate = true`. -/
theorem analyse_lines_rotation_decision {α : Type*} [LinearOrderedField α]
    (lines : List (List (α × α))) (r : Bool) (b : α × α × α × α) :
    (analyse_lines lines r b =
      if (xRange lines ≥ yRange lines ∧ b.2.2.1 - b.1 ≥ b.2.2.2 - b.2.1) ∨
          (xRange lines ≤ yRange lines ∧ b.2.2.1 - b.1 ≤ b.2.2.2 - b.2.1) then
        { rotate := false, x_mid := xMid lines, y_mid := yMid lines,
          box_x_mid := (b.1 + b.2.2.1) / 2, box_y_mid := (b.2.1 + b.2.2.2) / 2,
          divider := max (xRange lines / (b.2.2.1 - b.1)) (yRange lines / (b.2.2.2 - b.2.1)) }
      else
        { rotate := true, x_mid := yMid lines, y_mid := xMid lines,
          box_x_mid := (b.1 + b.2.2.1) / 2, box_y_mid := (b.2.1 + b.2.2.2) / 2,
          divider := max (xRange lines / (b.2.2.2 - b.2.1)) (yRange lines / (b.2.2.1 - b.1)) }) ∧
    (analyse_lines (α := ℚ) [[(0, 0), (10, 2)]] false (0, 0, 2, 10)).rotate = true := by
  refine ⟨analyse_lines_eq_ite lines r b, ?_⟩
  have hxr : xRange (α := ℚ) [[(0, 0), (10, 2)]] = 10 := by
    simp [xRange, xValues, listMax, listMin]
  have hyr : yRange (α := ℚ) [[(0, 0), (10, 2)]] = 2 := by
    simp [yRange, yValues, listMax, listMin]
  rw [analyse_lines_eq_ite, if_neg]
  rw [hxr, hyr]
  norm_num

/-- C9: `Bonnet.set_angle(0, a)` caches `a + 120` (the mechanical
offset leaks into `last_angles`), so `get_angles()[0]` reports
`a + 120`; channel 1 caches the commanded angle unchanged; and the
cached shoulder angle never equals the raw angle the core commanded. -/
theorem bonnet_offset_leaks (s : PState) (a : ℝ) :
    (bonnet_get_angles (bonnet_set_angle s 0 a).1).1 = a + 120 ∧
    (bonnet_get_angles (bonnet_set_angle s 1 a).1).2 = a ∧
    (bonnet_get_angles (bonnet_set_angle s 0 a).1).1 ≠ a := by
  refine ⟨rfl, rfl, ?_⟩
  show a + 120 ≠ a
  intro hcontra
  have : (120 : ℝ) = 0 := by linarith
  norm_num at this

/-- C10: `plot_lines` is independent of its `rotate` and `flip`
arguments: two invocations differing only in those arguments produce
the same outcome (same command sequence and same final state). -/
theorem plot_lines_ignores_rotate_flip (cfg : Config) (s : PState)
    (lines : List (List (ℝ × ℝ))) (wait interpolate : ℝ) (r₁ f₁ r₂ f₂ : Bool)
    (bounds : Option (ℝ × ℝ × ℝ × ℝ)) :
    plot_lines cfg s lines wait interpolate r₁ f₁ bounds =
      plot_lines cfg s lines wait interpolate r₂ f₂ bounds := rfl

/-! ## C2: reachability boundary -/

/-- The `asin` argument `x / hypotenuse` always lies in `[-1, 1]`. -/
theorem asin_arg_in_range (x y : ℝ) (hpos : 0 < Real.sqrt (x ^ 2 + y ^ 2)) :
    -1 ≤ x / Real.sqrt (x ^ 2 + y ^ 2) ∧ x / Real.sqrt (x ^ 2 + y ^ 2) ≤ 1 := by
  have habs : |x| ≤ Real.sqrt (x ^ 2 + y ^ 2) := by
    have h1 : Real.sqrt (x ^ 2) ≤ Real.sqrt (x ^ 2 + y ^ 2) :=
      Real.sqrt_le_sqrt (by nlinarith [sq_nonneg y])
    rwa [Real.sqrt_sq_eq_abs] at h1
  constructor
  · rw [le_div_iff₀ hpos]
    nlinarith [neg_abs_le x]
  · rw [div_le_one hpos]
    nlinarith [le_abs_self x]

/-- On the annulus `|I - O| ≤ h ≤ I + O`, both law-of-cosines `acos`
arguments lie in `[-1, 1]`. -/
theorem acos_args_in_range (I O h : ℝ) (hI : 0 < I) (hO : 0 < O) (hh : 0 < h)
    (h1 : |I - O| ≤ h) (h2 : h ≤ I + O) :
    (-1 ≤ (h ^ 2 + I ^ 2 - O ^ 2) / (2 * h * I) ∧
      (h ^ 2 + I ^ 2 - O ^ 2) / (2 * h * I) ≤ 1) ∧
    (-1 ≤ (I ^ 2 + O ^ 2 - h ^ 2) / (2 * I * O) ∧
      (I ^ 2 + O ^ 2 - h ^ 2) / (2 * I * O) ≤ 1) := by
  have hIO1 : I - O ≤ h := le_trans (le_abs_self _) h1
  have hIO2 : O - I ≤ h := by
    have h3 := le_abs_self (O - I)
    rw [abs_sub_comm] at h3
    linarith
  have hdenI : (0 : ℝ) < 2 * h * I := by positivity
  have hdenO : (0 : ℝ) < 2 * I * O := by positivity
  refine ⟨⟨?_, ?_⟩, ?_, ?_⟩
  · rw [le_div_iff₀ hdenI]
    nlinarith [mul_nonneg (show (0 : ℝ) ≤ h + I - O by linarith)
      (show (0 : ℝ) ≤ h + I + O by linarith)]
  · rw [div_le_one hdenI]
    nlinarith [mul_nonneg (show (0 : ℝ) ≤ O - h + I by linarith)
      (show (0 : ℝ) ≤ O + h - I by linarith)]
  · rw [le_div_iff₀ hdenO]
    nlinarith [mul_nonneg (show (0 : ℝ) ≤ I + O - h by linarith)
      (show (0 : ℝ) ≤ I + O + h by linarith)]
  · rw [div_le_one hdenO]
    nlinarith [mul_nonneg (show (0 : ℝ) ≤ h - (I - O) by linarith)
      (show (0 : ℝ) ≤ h + (I - O) by linarith)]

/-- C2 counterexample: for `inner_arm = 10`, `outer_arm = 2` and
target `(5, 0)` — a positive distance of 5, not exceeding
`inner + outer = 12` — the source does not return joint angles: the
first law-of-cosines argument is `121/100 > 1`, so `math.acos` raises
`ValueError` (math domain error), refuting "otherwise returns joint
angles". -/
theorem xy_to_angles_domain_error_too_close :
    xy_to_angles 10 2 5 0 = .error .domain ∧
    0 < Real.sqrt ((5 : ℝ) ^ 2 + 0 ^ 2) ∧
    ¬ ((10 : ℝ) + 2 < Real.sqrt ((5 : ℝ) ^ 2 + 0 ^ 2)) := by
  have h5 : Real.sqrt ((5 : ℝ) ^ 2 + 0 ^ 2) = 5 := by
    rw [show ((5 : ℝ) ^ 2 + 0 ^ 2) = 5 ^ 2 by norm_num]
    exact Real.sqrt_sq (by norm_num)
  refine ⟨?_, by rw [h5]; norm_num, by rw [h5]; norm_num⟩
  simp only [xy_to_angles, h5]
  norm_num

/-- C2 (amended): `xy_to_angles` raises the unreachable-target error
exactly when the distance exceeds `inner_arm + outer_arm`; but
"otherwise returns joint angles" holds only on the reachable annulus:
for distances at least `|inner_arm - outer_arm|` it returns angles,
while for a positive distance below `|inner_arm - outer_arm|` it
raises a math domain error instead.  For `inner = outer = 8`, distance
exactly 16 succeeds and 16.0001 fails with the unreachable-target
error. -/
theorem xy_to_angles_reach_boundary (I O x y : ℝ) (hI : 0 < I) (hO : 0 < O)
    (hpos : 0 < Real.sqrt (x ^ 2 + y ^ 2)) :
    (xy_to_angles I O x y = .error .unreachable ↔
      I + O < Real.sqrt (x ^ 2 + y ^ 2)) ∧
    (|I - O| ≤ Real.sqrt (x ^ 2 + y ^ 2) → Real.sqrt (x ^ 2 + y ^ 2) ≤ I + O →
      ∃ a, xy_to_angles I O x y = .ok a) ∧
    (Real.sqrt (x ^ 2 + y ^ 2) < |I - O| → xy_to_angles I O x y = .error .domain) ∧
    isAngles (xy_to_angles 8 8 16 0) = true ∧
    xy_to_angles 8 8 16.0001 0 = .error .unreachable := by
  have hasin := asin_arg_in_range x y hpos
  have hok : |I - O| ≤ Real.sqrt (x ^ 2 + y ^ 2) → Real.sqrt (x ^ 2 + y ^ 2) ≤ I + O →
      ∃ a, xy_to_angles I O x y = .ok a := by
    intro hlo hhi
    have hacos := acos_args_in_range I O (Real.sqrt (x ^ 2 + y ^ 2)) hI hO hpos hlo hhi
    refine ⟨(degrees (Real.arcsin (x / Real.sqrt (x ^ 2 + y ^ 2)) -
        Real.arccos ((Real.sqrt (x ^ 2 + y ^ 2) ^ 2 + I ^ 2 - O ^ 2) /
          (2 * Real.sqrt (x ^ 2 + y ^ 2) * I))),
      degrees (Real.pi - Real.arccos ((I ^ 2 + O ^ 2 - Real.sqrt (x ^ 2 + y ^ 2) ^ 2) /
        (2 * I * O)))), ?_⟩
    simp only [xy_to_angles]
    rw [if_neg (not_lt.mpr hhi), if_neg (ne_of_gt hpos),
      if_neg (by push_neg; exact hasin), if_neg (by push_neg; exact hacos.1),
      if_neg (by push_neg; exact hacos.2)]
  have hdom : Real.sqrt (x ^ 2 + y ^ 2) < |I - O| →
      xy_to_angles I O x y = .error .domain := by
    intro hlt
    rcases le_or_lt I O with hc | hc
    · have habs : |I - O| = O - I := by rw [abs_of_nonpos (by linarith)]; ring
      rw [habs] at hlt
      have hfire : (Real.sqrt (x ^ 2 + y ^ 2) ^ 2 + I ^ 2 - O ^ 2) /
          (2 * Real.sqrt (x ^ 2 + y ^ 2) * I) < -1 := by
        rw [div_lt_iff₀ (by positivity)]
        nlinarith [mul_pos (show (0 : ℝ) < O - (Real.sqrt (x ^ 2 + y ^ 2) + I) by linarith)
          (show (0 : ℝ) < O + (Real.sqrt (x ^ 2 + y ^ 2) + I) by linarith)]
      simp only [xy_to_angles]
      rw [if_neg (not_lt.mpr (by linarith)), if_neg (ne_of_gt hpos),
        if_neg (by push_neg; exact hasin), if_pos (Or.inl hfire)]
    · have habs : |I - O| = I - O := abs_of_pos (by linarith)
      rw [habs] at hlt
      have hfire : 1 < (Real.sqrt (x ^ 2 + y ^ 2) ^ 2 + I ^ 2 - O ^ 2) /
          (2 * Real.sqrt (x ^ 2 + y ^ 2) * I) := by
        rw [lt_div_iff₀ (by positivity)]
        nlinarith [mul_pos (show (0 : ℝ) < (I - Real.sqrt (x ^ 2 + y ^ 2)) - O by linarith)
          (show (0 : ℝ) < (I - Real.sqrt (x ^ 2 + y ^ 2)) + O by linarith)]
      simp only [xy_to_angles]
      rw [if_neg (not_lt.mpr (by linarith)), if_neg (ne_of_gt hpos),
        if_neg (by push_neg; exact hasin), if_pos (Or.inr hfire)]
  have hiff : xy_to_angles I O x y = .error .unreachable ↔
      I + O < Real.sqrt (x ^ 2 + y ^ 2) := by
    constructor
    · intro heq
      by_contra hc
      push_neg at hc
      rcases le_or_lt |I - O| (Real.sqrt (x ^ 2 + y ^ 2)) with hge | hlt
      · obtain ⟨a, ha⟩ := hok hge hc
        rw [ha] at heq
        simp at heq
      · rw [hdom hlt] at heq
        simp at heq
    · intro hlt
      simp only [xy_to_angles]
      rw [if_pos hlt]
  refine ⟨hiff, hok, hdom, ?_, ?_⟩
  · have h16 : Real.sqrt ((16 : ℝ) ^ 2 + 0 ^ 2) = 16 := by
      rw [show ((16 : ℝ) ^ 2 + 0 ^ 2) = 16 ^ 2 by norm_num]
      exact Real.sqrt_sq (by norm_num)
    simp only [xy_to_angles, h16]
    norm_num [isAngles]
  · have h16 : Real.sqrt ((16.0001 : ℝ) ^ 2 + 0 ^ 2) = 16.0001 := by
      rw [show ((16.0001 : ℝ) ^ 2 + 0 ^ 2) = 16.0001 ^ 2 by norm_num]
      exact Real.sqrt_sq (by norm_num)
    simp only [xy_to_angles, h16]
    norm_num

/-- Witness for C2 at the concrete target `(16, 0)` with both arms 8. -/
theorem xy_to_angles_reach_boundary_witness :
    ((0 : ℝ) < 8 ∧ 0 < Real.sqrt ((16 : ℝ) ^ 2 + 0 ^ 2)) ∧
    ((xy_to_angles 8 8 16 0 = .error .unreachable ↔
        (8 : ℝ) + 8 < Real.sqrt ((16 : ℝ) ^ 2 + 0 ^ 2)) ∧
      (|(8 : ℝ) - 8| ≤ Real.sqrt ((16 : ℝ) ^ 2 + 0 ^ 2) →
        Real.sqrt ((16 : ℝ) ^ 2 + 0 ^ 2) ≤ 8 + 8 →
        ∃ a, xy_to_angles 8 8 16 0 = .ok a) ∧
      (Real.sqrt ((16 : ℝ) ^ 2 + 0 ^ 2) < |(8 : ℝ) - 8| →
        xy_to_angles 8 8 16 0 = .error .domain) ∧
      isAngles (xy_to_angles 8 8 16 0) = true ∧
      xy_to_angles 8 8 16.0001 0 = .error .unreachable) :=
  ⟨⟨by norm_num, Real.sqrt_pos.mpr (by norm_num)⟩,
    xy_to_angles_reach_boundary 8 8 16 0 (by norm_num) (by norm_num)
      (Real.sqrt_pos.mpr (by norm_num))⟩

/-! ## C5: interpolation step count -/

/-- C5 counterexample: for a move of length 0.16 with interpolation
factor 10 the source computes `int(1.6) or 1 = 1` steps, while the
claimed formula `max(1, round(d * k))` gives 2. -/
theorem no_of_steps_truncates_not_rounds :
    no_of_steps 0 0 (16 / 100) 0 10 = 1 ∧
    max 1 (round (move_length 0 0 (16 / 100) 0 * 10)) = 2 := by
  have hlen : move_length 0 0 (16 / 100) 0 = 16 / 100 := by
    unfold move_length
    rw [show ((16 / 100 : ℝ) - 0) ^ 2 + (0 - 0) ^ 2 = (16 / 100) ^ 2 by norm_num]
    exact Real.sqrt_sq (by norm_num)
  constructor
  · unfold no_of_steps pyInt
    rw [hlen]
    rw [if_pos (by norm_num : (0 : ℝ) ≤ 16 / 100 * 10)]
    rw [show ⌊(16 / 100 * 10 : ℝ)⌋ = 1 from by
      rw [Int.floor_eq_iff]
      constructor <;> norm_num]
    norm_num
  · rw [hlen]
    rw [show round ((16 / 100 : ℝ) * 10) = 2 from by
      rw [round_eq, Int.floor_eq_iff]
      constructor <;> norm_num]
    decide

/-- C5 (amended): for every move, the interpolation step count equals
`max 1 ⌊distance * interpolate⌋` — Python `int()` truncation, not
rounding — whenever the interpolation factor is nonnegative. -/
theorem no_of_steps_eq_max_floor (cx cy x y k : ℝ) (hk : 0 ≤ k) :
    no_of_steps cx cy x y k = max 1 ⌊move_length cx cy x y * k⌋ := by
  have hL : 0 ≤ move_length cx cy x y := Real.sqrt_nonneg _
  have hLk : 0 ≤ move_length cx cy x y * k := mul_nonneg hL hk
  have hfl : 0 ≤ ⌊move_length cx cy x y * k⌋ := Int.floor_nonneg.mpr hLk
  unfold no_of_steps pyInt
  rw [if_pos hLk]
  by_cases h0 : ⌊move_length cx cy x y * k⌋ = 0
  · rw [if_pos h0, h0]
    rfl
  · rw [if_neg h0]
    have h1 : 1 ≤ ⌊move_length cx cy x y * k⌋ := lt_of_le_of_ne hfl (Ne.symm h0)
    exact (max_eq_right h1).symm

/-- Witness for C5 at the concrete move `(0,0) → (3,4)` with
interpolation factor 10: 50 steps. -/
theorem no_of_steps_eq_max_floor_witness :
    (0 : ℝ) ≤ 10 ∧ no_of_steps 0 0 3 4 10 = max 1 ⌊move_length 0 0 3 4 * 10⌋ :=
  ⟨by norm_num, no_of_steps_eq_max_floor 0 0 3 4 10 (by norm_num)⟩

/-! ## C8: missing-bounds refusal -/

/-- C8: invoked with no bounds argument and no bounds configured,
`plot_lines` (and likewise `box`) returns a refusal message without
raising, without issuing any command, and without modifying the plotter
state. -/
theorem plot_lines_missing_bounds (cfg : Config) (s : PState)
    (lines : List (List (ℝ × ℝ))) (wait interpolate : ℝ) (rotate flip : Bool)
    (repeats : ℕ) (reverse : Bool)
    (hb : cfg.bounds = none) :
    plot_lines cfg s lines wait interpolate rotate flip none =
      .refused s [] "Line plotting is only possible when BrachioGraph.bounds is set." ∧
    box cfg s wait interpolate repeats reverse none =
      .refused s [] "Box drawing is only possible when BrachioGraph.bounds is set." := by
  constructor
  · simp only [plot_lines, hb]
  · simp only [box, hb]

/-- A sample bounds-less configuration, for evaluating refusal paths. -/
noncomputable def cfgNoBounds : Config :=
  { inner := 8, outer := 8, wait := 1 / 10, angle_up := 0, angle_down := 10,
    transition_time := 1 / 4, bounds := none }

/-- A sample plotter state. -/
noncomputable def restState : PState :=
  { current_x := -8, current_y := 8, last0 := 30, last1 := 90, last2 := 0 }

/-- Witness for C8: the concrete bounds-less configuration refuses. -/
theorem plot_lines_missing_bounds_witness :
    cfgNoBounds.bounds = none ∧
    (plot_lines cfgNoBounds restState [[(0, 0), (1, 1)]] 0 10 false false none =
        .refused restState []
          "Line plotting is only possible when BrachioGraph.bounds is set." ∧
      box cfgNoBounds restState 0 10 1 false none =
        .refused restState []
          "Box drawing is only possible when BrachioGraph.bounds is set.") :=
  ⟨rfl, plot_lines_missing_bounds cfgNoBounds restState [[(0, 0), (1, 1)]] 0 10 false false
    1 false rfl⟩

/-! ## C6: move elision -/

/-- Concrete kinematics fact: the target `(0, 16)` with both arms 8
maps to shoulder 0°, elbow 0°. -/
theorem xy_to_angles_zero_sixteen : xy_to_angles 8 8 0 16 = .ok (0, 0) := by
  have hs : Real.sqrt ((0 : ℝ) ^ 2 + 16 ^ 2) = 16 := by
    rw [show ((0 : ℝ) ^ 2 + 16 ^ 2) = 16 ^ 2 by norm_num]
    exact Real.sqrt_sq (by norm_num)
  simp only [xy_to_angles, hs]
  rw [if_neg (by norm_num), if_neg (by norm_num)]
  rw [show (0 : ℝ) / 16 = 0 by norm_num]
  rw [if_neg (by norm_num)]
  rw [show ((16 : ℝ) ^ 2 + 8 ^ 2 - 8 ^ 2) / (2 * 16 * 8) = 1 by norm_num]
  rw [if_neg (by norm_num)]
  rw [show ((8 : ℝ) ^ 2 + 8 ^ 2 - 16 ^ 2) / (2 * 8 * 8) = -1 by norm_num]
  rw [if_neg (by norm_num)]
  rw [Real.arcsin_zero, Real.arccos_one, Real.arccos_neg_one]
  simp [degrees]

/-- Number of `set_angle` commands in a trace. -/
def countSetAngles (cs : List Cmd) : ℕ :=
  (cs.filter fun c => match c with
    | Cmd.setAngle _ _ => true
    | Cmd.sleep _ => false).length

/-- The `bg.py` configuration: arms 8/8, wait 0.1, `angle_up=10`,
`angle_down=0`, pen transition 0.25, bounds `(-8, 4, 8, 13)`. -/
noncomputable def cfgStd : Config :=
  { inner := 8, outer := 8, wait := 1 / 10, angle_up := 10, angle_down := 0,
    transition_time := 1 / 4, bounds := some (-8, 4, 8, 13) }

/-- A state whose cached shoulder/elbow angles already equal the angles
computed for the target `(0, 16)`. -/
noncomputable def elidedState : PState :=
  { current_x := 3, current_y := 4, last0 := 0, last1 := 0, last2 := 10 }

/-- C6 counterexample: an elided move (computed angles equal the cached
angles) still issues one `set_angle` command — the unconditional pen
command on channel 2 — so the claimed "zero set_angle commands" fails. -/
theorem xy_elided_issues_pen_command :
    (xy cfgStd elidedState 0 16 (1 / 10) 10 false).map (fun r => countSetAngles r.2) =
      some 1 ∧ (1 : ℕ) ≠ 0 := by
  refine ⟨?_, by decide⟩
  simp only [xy, cfgStd, elidedState, pen_up, bonnet_set_angle, bonnet_get_angles,
    xy_to_angles_zero_sixteen, countSetAngles]
  norm_num

/-- C6 (amended): whenever the computed joint angles equal the Device
Interface's cached angles, `xy` elides the motion: it issues no
shoulder/elbow `set_angle` and no interpolation pacing sleep — the
trace is exactly the unconditional pen command on channel 2 followed by
the pen transition sleep — and, beyond the pen update, it only sets
`current_x`/`current_y` to the target before returning. -/
theorem xy_elision (cfg : Config) (s : PState) (x y wait interpolate : ℝ) (draw : Bool)
    (h : xy_to_angles cfg.inner cfg.outer x y = .ok (s.last0, s.last1)) :
    xy cfg s x y wait interpolate draw =
      some ({ (if draw then pen_down cfg s else pen_up cfg s).1 with
                current_x := x, current_y := y },
            (if draw then pen_down cfg s else pen_up cfg s).2) ∧
    (if draw then pen_down cfg s else pen_up cfg s).2 =
      [Cmd.setAngle 2 (if draw then cfg.angle_down else cfg.angle_up),
        Cmd.sleep cfg.transition_time] := by
  cases draw
  · constructor
    · simp only [xy, Bool.false_eq_true, if_false, h]
      rw [if_pos (show (s.last0, s.last1) = bonnet_get_angles (pen_up cfg s).1 from rfl)]
    · rfl
  · constructor
    · simp only [xy, if_true, h]
      rw [if_pos (show (s.last0, s.last1) = bonnet_get_angles (pen_down cfg s).1 from rfl)]
    · rfl

/-- Witness for C6 at the concrete elided move to `(0, 16)`. -/
theorem xy_elision_witness :
    xy_to_angles cfgStd.inner cfgStd.outer 0 16 =
        .ok (elidedState.last0, elidedState.last1) ∧
    (xy cfgStd elidedState 0 16 (1 / 10) 10 false =
        some ({ (if false then pen_down cfgStd elidedState
                  else pen_up cfgStd elidedState).1 with
                  current_x := 0, current_y := 16 },
              (if false then pen_down cfgStd elidedState
                else pen_up cfgStd elidedState).2) ∧
      (if false then pen_down cfgStd elidedState
        else pen_up cfgStd elidedState).2 =
        [Cmd.setAngle 2 (if false then cfgStd.angle_down else cfgStd.angle_up),
          Cmd.sleep cfgStd.transition_time]) :=
  ⟨xy_to_angles_zero_sixteen,
    xy_elision cfgStd elidedState 0 16 (1 / 10) 10 false xy_to_angles_zero_sixteen⟩

/-! ## C7: final position of a move -/

/-- The interpolation loop accumulates exactly `k` per-step deltas onto
the current position. -/
theorem xy_steps_position (I O sx sy L w : ℝ) (n : ℤ) :
    ∀ (k : ℕ) (s s' : PState) (cs : List Cmd),
      xy_steps I O sx sy L w n k s = some (s', cs) →
      s'.current_x = s.current_x + k * sx ∧ s'.current_y = s.current_y + k * sy := by
  intro k
  induction k with
  | zero =>
    intro s s' cs hstep
    simp only [xy_steps, Option.some.injEq] at hstep
    obtain ⟨rfl, -⟩ := Prod.mk.injEq .. ▸ hstep
    simp
  | succ k ih =>
    intro s s' cs hstep
    simp only [xy_steps] at hstep
    cases hxy : xy_to_angles I O (s.current_x + sx) (s.current_y + sy) with
    | error e =>
      rw [hxy] at hstep
      cases hstep
    | ok a =>
      obtain ⟨a1, a2⟩ := a
      rw [hxy] at hstep
      dsimp only at hstep
      cases hrec : xy_steps I O sx sy L w n k
          (bonnet_set_angles
            { s with current_x := s.current_x + sx, current_y := s.current_y + sy } a1 a2).1 with
      | none =>
        rw [hrec] at hstep
        cases hstep
      | some r =>
        obtain ⟨s'', cs''⟩ := r
        rw [hrec] at hstep
        simp only [Option.some.injEq, Prod.mk.injEq] at hstep
        obtain ⟨rfl, -⟩ := hstep
        have hcur := ih _ _ _ hrec
        have hcx : (bonnet_set_angles
            { s with current_x := s.current_x + sx, current_y := s.current_y + sy } a1 a2).1.current_x
            = s.current_x + sx := rfl
        have hcy : (bonnet_set_angles
            { s with current_x := s.current_x + sx, current_y := s.current_y + sy } a1 a2).1.current_y
            = s.current_y + sy := rfl
        rw [hcx, hcy] at hcur
        obtain ⟨h1, h2⟩ := hcur
        constructor
        · rw [h1]; push_cast; ring
        · rw [h2]; push_cast; ring

/-- The step count is at least one whenever the interpolation factor is
nonnegative. -/
theorem one_le_no_of_steps (cx cy x y k : ℝ) (hk : 0 ≤ k) :
    1 ≤ no_of_steps cx cy x y k := by
  have hLk : 0 ≤ move_length cx cy x y * k := mul_nonneg (Real.sqrt_nonneg _) hk
  unfold no_of_steps pyInt
  rw [if_pos hLk]
  by_cases h0 : ⌊move_length cx cy x y * k⌋ = 0
  · rw [if_pos h0]
  · rw [if_neg h0]
    exact lt_of_le_of_ne (Int.floor_nonneg.mpr hLk) (Ne.symm h0)

/-- C7: every move through `xy` that completes without error (with a
nonnegative interpolation factor) ends with `(current_x, current_y)`
equal to the target exactly — in this exact-arithmetic model the
accumulated per-step deltas telescope to the full difference; the
source reaches the target by accumulation, with no closing
assignment. -/
theorem xy_final_position (cfg : Config) (s : PState) (x y wait interpolate : ℝ)
    (draw : Bool) (s' : PState) (cs : List Cmd)
    (hk : 0 ≤ interpolate)
    (hsome : xy cfg s x y wait interpolate draw = some (s', cs)) :
    s'.current_x = x ∧ s'.current_y = y := by
  simp only [xy] at hsome
  cases hxy : xy_to_angles cfg.inner cfg.outer x y with
  | error e =>
    rw [hxy] at hsome
    cases hsome
  | ok a =>
    obtain ⟨a1, a2⟩ := a
    rw [hxy] at hsome
    dsimp only at hsome
    by_cases helide : (a1, a2) =
        bonnet_get_angles (if draw then pen_down cfg s else pen_up cfg s).1
    · rw [if_pos helide] at hsome
      simp only [Option.some.injEq, Prod.mk.injEq] at hsome
      obtain ⟨rfl, -⟩ := hsome
      exact ⟨rfl, rfl⟩
    · rw [if_neg helide] at hsome
      set p := (if draw then pen_down cfg s else pen_up cfg s) with hp
      set steps := no_of_steps p.1.current_x p.1.current_y x y interpolate with hsteps
      cases hrec : xy_steps cfg.inner cfg.outer
          ((x - p.1.current_x) / (steps : ℝ)) ((y - p.1.current_y) / (steps : ℝ))
          (move_length p.1.current_x p.1.current_y x y)
          (if wait = 0 then cfg.wait else wait) steps steps.toNat p.1 with
      | none =>
        rw [hrec] at hsome
        cases hsome
      | some r =>
        obtain ⟨s'', cs''⟩ := r
        rw [hrec] at hsome
        simp only [Option.some.injEq, Prod.mk.injEq] at hsome
        obtain ⟨rfl, -⟩ := hsome
        have hpos := xy_steps_position _ _ _ _ _ _ _ _ _ _ _ hrec
        have h1 : 1 ≤ steps := one_le_no_of_steps p.1.current_x p.1.current_y x y interpolate hk
        have hcast : ((steps.toNat : ℕ) : ℝ) = (steps : ℝ) := by
          have hz : (steps.toNat : ℤ) = steps := Int.toNat_of_nonneg (by linarith)
          exact_mod_cast hz
        have hne : (steps : ℝ) ≠ 0 := by
          have : (1 : ℝ) ≤ (steps : ℝ) := by exact_mod_cast h1
          linarith
        obtain ⟨hx1, hy1⟩ := hpos
        constructor
        · rw [hx1, hcast, mul_comm, div_mul_cancel₀ _ hne]
          ring
        · rw [hy1, hcast, mul_comm, div_mul_cancel₀ _ hne]
          ring

/-- A state 0.1 below the target `(0, 16)`, with cached angles that do
not match the target's, so the move is not elided. -/
noncomputable def nearState : PState :=
  { current_x := 0, current_y := 159 / 10, last0 := 1, last1 := 0, last2 := 10 }

/-- Concrete evaluation of a non-elided one-step move: from
`(0, 15.9)` to `(0, 16)` the interpolation loop runs once, commanding
both servos (channel 0 with its +120 offset) and accumulating the
position to the target. -/
theorem xy_one_step_eval :
    xy cfgStd nearState 0 16 (1 / 10) 10 false =
      some ({ current_x := 0, current_y := 16, last0 := 120, last1 := 0, last2 := 10 },
        [Cmd.setAngle 2 10, Cmd.sleep (1 / 4), Cmd.setAngle 0 120, Cmd.setAngle 1 0,
          Cmd.sleep (1 / 1000)]) := by
  have hL : move_length (0 : ℝ) (159 / 10) 0 16 = 1 / 10 := by
    unfold move_length
    rw [show ((0 : ℝ) - 0) ^ 2 + (16 - 159 / 10) ^ 2 = (1 / 10) ^ 2 by norm_num]
    exact Real.sqrt_sq (by norm_num)
  have hsteps : no_of_steps (0 : ℝ) (159 / 10) 0 16 10 = 1 := by
    unfold no_of_steps pyInt
    rw [hL]
    norm_num
  have hloop : xy_steps 8 8 0 (1 / 10) (1 / 10) (1 / 10) 1 1
      ({ current_x := 0, current_y := 159 / 10, last0 := 1, last1 := 0, last2 := 10 } : PState) =
      some ({ current_x := 0, current_y := 16, last0 := 120, last1 := 0, last2 := 10 },
        [Cmd.setAngle 0 120, Cmd.setAngle 1 0]) := by
    rw [show (1 : ℕ) = 0 + 1 from rfl]
    simp only [xy_steps, bonnet_set_angles, bonnet_set_angle]
    rw [show (0 : ℝ) + 0 = 0 by norm_num, show (159 / 10 : ℝ) + 1 / 10 = 16 by norm_num]
    rw [xy_to_angles_zero_sixteen]
    norm_num
  simp only [xy, cfgStd, nearState, pen_up, bonnet_set_angle, bonnet_get_angles,
    xy_to_angles_zero_sixteen, hL, hsteps]
  norm_num [hloop, hL, hsteps, Prod.ext_iff, Int.toNat_one]

/-- Witness for C7 at the concrete completed non-elided move from
`(0, 15.9)` to `(0, 16)`. -/
theorem xy_final_position_witness :
    ((0 : ℝ) ≤ 10) ∧
    (({ current_x := 0, current_y := 16, last0 := 120, last1 := 0, last2 := 10 } : PState).current_x
        = 0 ∧
      ({ current_x := 0, current_y := 16, last0 := 120, last1 := 0, last2 := 10 } : PState).current_y
        = 16) :=
  ⟨by norm_num,
    xy_final_position cfgStd nearState 0 16 (1 / 10) 10 false _ _ (by norm_num)
      xy_one_step_eval⟩

/-! ## C1: kinematics round trip -/

theorem degrees_radians (d : ℝ) : degrees (radians d) = d := by
  unfold degrees radians
  field_simp

/-- C1: for every shoulder/elbow pair in the mechanically reachable
range of the arm geometry (elbow between 0° and 180°, positive
recovered hypotenuse, and the inner angle `base + shoulder` within
±90° of vertical), converting the angles to a Cartesian point with
`angles_to_xy` and back with `xy_to_angles` recovers the pair exactly
in real arithmetic (hence within any floating-point tolerance). -/
theorem kinematics_round_trip (I O s e : ℝ) (hI : 0 < I) (hO : 0 < O)
    (he0 : 0 ≤ e) (he1 : e ≤ 180) (hh : 0 < hypOfElbow I O e)
    (hr1 : -(Real.pi / 2) ≤ baseOfElbow I O e + radians s)
    (hr2 : baseOfElbow I O e + radians s ≤ Real.pi / 2) :
    xy_to_angles I O (angles_to_xy I O s e).1 (angles_to_xy I O s e).2 = .ok (s, e) := by
  have hπ := Real.pi_pos
  have hargnn : 0 ≤ I ^ 2 + O ^ 2 - 2 * I * O * Real.cos (Real.pi - radians e) := by
    nlinarith [Real.cos_le_one (Real.pi - radians e), mul_pos hI hO, sq_nonneg (I - O)]
  have hA : hypOfElbow I O e ^ 2 = I ^ 2 + O ^ 2 - 2 * I * O * Real.cos (Real.pi - radians e) := by
    unfold hypOfElbow
    exact Real.sq_sqrt hargnn
  set h := hypOfElbow I O e with hhdef
  set base := baseOfElbow I O e with hbasedef
  set inner := base + radians s with hinnerdef
  have hsqrt_def : h = Real.sqrt (I ^ 2 + O ^ 2 - 2 * I * O * Real.cos (Real.pi - radians e)) :=
    hhdef
  have hx : (angles_to_xy I O s e).1 = Real.sin inner * h := rfl
  have hy : (angles_to_xy I O s e).2 = Real.cos inner * h := rfl
  have hsum : (Real.sin inner * h) ^ 2 + (Real.cos inner * h) ^ 2 = h ^ 2 := by
    have hsc := Real.sin_sq_add_cos_sq inner
    calc (Real.sin inner * h) ^ 2 + (Real.cos inner * h) ^ 2
        = (Real.sin inner ^ 2 + Real.cos inner ^ 2) * h ^ 2 := by ring
      _ = 1 * h ^ 2 := by rw [hsc]
      _ = h ^ 2 := one_mul _
  have hhyp : Real.sqrt ((Real.sin inner * h) ^ 2 + (Real.cos inner * h) ^ 2) = h := by
    rw [hsum]
    exact Real.sqrt_sq hh.le
  have hle : h ≤ I + O := by
    have hb : I ^ 2 + O ^ 2 - 2 * I * O * Real.cos (Real.pi - radians e) ≤ (I + O) ^ 2 := by
      nlinarith [Real.neg_one_le_cos (Real.pi - radians e), mul_pos hI hO]
    have hsq := Real.sqrt_le_sqrt hb
    rw [Real.sqrt_sq (by positivity)] at hsq
    rw [hsqrt_def]
    exact hsq
  have hsq2 : (I - O) ^ 2 ≤ h ^ 2 := by
    rw [hA]
    nlinarith [Real.cos_le_one (Real.pi - radians e), mul_pos hI hO]
  have habs : |I - O| ≤ h := by
    have h1 := Real.sqrt_le_sqrt hsq2
    rwa [Real.sqrt_sq_eq_abs, Real.sqrt_sq hh.le] at h1
  have hacos := acos_args_in_range I O h hI hO hh habs hle
  rw [hx, hy]
  simp only [xy_to_angles]
  rw [hhyp]
  rw [mul_div_cancel_right₀ _ (ne_of_gt hh)]
  rw [if_neg (not_lt.mpr hle), if_neg (ne_of_gt hh),
    if_neg (by push_neg; exact ⟨Real.neg_one_le_sin inner, Real.sin_le_one inner⟩),
    if_neg (by push_neg; exact hacos.1), if_neg (by push_neg; exact hacos.2)]
  have harcsin : Real.arcsin (Real.sin inner) = inner := Real.arcsin_sin hr1 hr2
  have harccos1 : Real.arccos ((h ^ 2 + I ^ 2 - O ^ 2) / (2 * h * I)) = base := rfl
  have harccos2 : Real.arccos ((I ^ 2 + O ^ 2 - h ^ 2) / (2 * I * O)) = Real.pi - radians e := by
    have h2IO : (2 : ℝ) * I * O ≠ 0 := by positivity
    have harg : (I ^ 2 + O ^ 2 - h ^ 2) / (2 * I * O) = Real.cos (Real.pi - radians e) := by
      rw [hA]
      field_simp
      ring
    rw [harg]
    have hrad0 : 0 ≤ radians e := by
      unfold radians
      exact div_nonneg (mul_nonneg he0 hπ.le) (by norm_num)
    have hradpi : radians e ≤ Real.pi := by
      unfold radians
      rw [div_le_iff₀ (by norm_num : (0 : ℝ) < 180)]
      nlinarith
    exact Real.arccos_cos (by linarith) (by linarith)
  rw [harcsin, harccos1, harccos2]
  rw [hinnerdef]
  rw [show base + radians s - base = radians s by ring]
  rw [show Real.pi - (Real.pi - radians e) = radians e by ring]
  rw [degrees_radians, degrees_radians]

/-- Witness for C1 at arms 8/8, shoulder 0°, elbow 90°. -/
theorem kinematics_round_trip_witness :
    0 < hypOfElbow 8 8 90 ∧
    -(Real.pi / 2) ≤ baseOfElbow 8 8 90 + radians 0 ∧
    baseOfElbow 8 8 90 + radians 0 ≤ Real.pi / 2 ∧
    xy_to_angles 8 8 (angles_to_xy 8 8 0 90).1 (angles_to_xy 8 8 0 90).2 = .ok (0, 90) := by
  have hπ := Real.pi_pos
  have hrad0 : radians 0 = 0 := by unfold radians; ring
  have hcos : Real.cos (Real.pi - radians 90) = 0 := by
    rw [show Real.pi - radians 90 = Real.pi / 2 by unfold radians; ring]
    exact Real.cos_pi_div_two
  have hhyp : hypOfElbow 8 8 90 = Real.sqrt 128 := by
    unfold hypOfElbow
    rw [hcos]
    norm_num
  have hpos : 0 < hypOfElbow 8 8 90 := by
    rw [hhyp]
    exact Real.sqrt_pos.mpr (by norm_num)
  have hble : baseOfElbow 8 8 90 ≤ Real.pi / 2 := by
    unfold baseOfElbow
    apply Real.arccos_le_pi_div_two.mpr
    rw [hhyp]
    apply div_nonneg
    · nlinarith [sq_nonneg (Real.sqrt 128)]
    · positivity
  have hbge : 0 ≤ baseOfElbow 8 8 90 := Real.arccos_nonneg _
  refine ⟨hpos, ?_, ?_, ?_⟩
  · rw [hrad0]; linarith
  · rw [hrad0]; linarith
  · exact kinematics_round_trip 8 8 0 90 (by norm_num) (by norm_num) (by norm_num) (by norm_num)
      hpos (by rw [hrad0]; linarith) (by rw [hrad0]; linarith)

/-! ## C3: normalization fit -/

theorem analyse_lines_eq_pos {α : Type*} [LinearOrderedField α]
    (lines : List (List (α × α))) (r : Bool) (b : α × α × α × α)
    (h : (xRange lines ≥ yRange lines ∧ b.2.2.1 - b.1 ≥ b.2.2.2 - b.2.1) ∨
        (xRange lines ≤ yRange lines ∧ b.2.2.1 - b.1 ≤ b.2.2.2 - b.2.1)) :
    analyse_lines lines r b =
      { rotate := false, x_mid := xMid lines, y_mid := yMid lines,
        box_x_mid := (b.1 + b.2.2.1) / 2, box_y_mid := (b.2.1 + b.2.2.2) / 2,
        divider := max (xRange lines / (b.2.2.1 - b.1)) (yRange lines / (b.2.2.2 - b.2.1)) } := by
  rw [analyse_lines_eq_ite, if_pos h]

theorem analyse_lines_eq_neg {α : Type*} [LinearOrderedField α]
    (lines : List (List (α × α))) (r : Bool) (b : α × α × α × α)
    (h : ¬ ((xRange lines ≥ yRange lines ∧ b.2.2.1 - b.1 ≥ b.2.2.2 - b.2.1) ∨
        (xRange lines ≤ yRange lines ∧ b.2.2.1 - b.1 ≤ b.2.2.2 - b.2.1))) :
    analyse_lines lines r b =
      { rotate := true, x_mid := yMid lines, y_mid := xMid lines,
        box_x_mid := (b.1 + b.2.2.1) / 2, box_y_mid := (b.2.1 + b.2.2.2) / 2,
        divider := max (xRange lines / (b.2.2.2 - b.2.1)) (yRange lines / (b.2.2.1 - b.1)) } := by
  rw [analyse_lines_eq_ite, if_neg h]

/-- Centering on the artwork midpoint, uniform scaling and re-centering
on the box midpoint keeps a value between `lo` and `hi`, provided the
scale covers the artwork extent. -/
theorem scale_shift_mem {α : Type*} [LinearOrderedField α]
    {mn mx u lo hi D : α} (hlh : lo < hi) (hD : 0 ≤ D)
    (hDr : mx - mn ≤ D * (hi - lo)) (h1 : mn ≤ u) (h2 : u ≤ mx) :
    lo ≤ (u - (mx + mn) / 2) / D + (lo + hi) / 2 ∧
      (u - (mx + mn) / 2) / D + (lo + hi) / 2 ≤ hi := by
  rcases eq_or_lt_of_le hD with hD0 | hD0
  · have hmn : mx - mn ≤ 0 := by
      rw [← hD0, zero_mul] at hDr
      exact hDr
    have hzero : u - (mx + mn) / 2 = 0 := by linarith
    rw [hzero, zero_div]
    constructor <;> linarith
  · have hup : (u - (mx + mn) / 2) / D ≤ (hi - lo) / 2 := by
      rw [div_le_iff₀ hD0]
      nlinarith
    have hdown : -((hi - lo) / 2) ≤ (u - (mx + mn) / 2) / D := by
      rw [le_div_iff₀ hD0]
      nlinarith
    constructor <;> linarith

/-- C3 (amended): for every drawing and every nondegenerate bounds
rectangle, every transformed point (in particular every extremal one)
lies inside the rectangle, provided the x negation is inactive
(`flip` equals the computed rotation flag) or the rectangle is
symmetric about `x = 0`; the y coordinate always fits.  The original
claim's "both values of flip" fails for asymmetric bounds (see the
counterexample). -/
theorem rotate_and_scale_fits {α : Type*} [LinearOrderedField α]
    (lines : List (List (α × α))) (r flip : Bool) (b : α × α × α × α)
    (hbx : b.1 < b.2.2.1) (hby : b.2.1 < b.2.2.2)
    (hflip : flip = (analyse_lines lines r b).rotate ∨ b.1 + b.2.2.1 = 0) :
    ∀ line ∈ rotate_and_scale_lines lines r flip b, ∀ p ∈ line,
      b.1 ≤ p.1 ∧ p.1 ≤ b.2.2.1 ∧ b.2.1 ≤ p.2 ∧ p.2 ≤ b.2.2.2 := by
  intro tline htline q hq
  simp only [rotate_and_scale_lines] at htline
  obtain ⟨line₀, hline₀, rfl⟩ := List.mem_map.mp htline
  obtain ⟨p₀, hp₀, rfl⟩ := List.mem_map.mp hq
  have hmem : p₀ ∈ lines.flatten := List.mem_flatten.mpr ⟨line₀, hline₀, hp₀⟩
  have hxmem : p₀.1 ∈ xValues lines := List.mem_map_of_mem Prod.fst hmem
  have hymem : p₀.2 ∈ yValues lines := List.mem_map_of_mem Prod.snd hmem
  have hx1 : listMin (xValues lines) ≤ p₀.1 := listMin_le hxmem
  have hx2 : p₀.1 ≤ listMax (xValues lines) := le_listMax hxmem
  have hy1 : listMin (yValues lines) ≤ p₀.2 := listMin_le hymem
  have hy2 : p₀.2 ≤ listMax (yValues lines) := le_listMax hymem
  have hbxpos : 0 < b.2.2.1 - b.1 := by linarith
  have hbypos : 0 < b.2.2.2 - b.2.1 := by linarith
  have hxr : 0 ≤ xRange lines := by unfold xRange; linarith
  have hyr : 0 ≤ yRange lines := by unfold yRange; linarith
  by_cases hcond : (xRange lines ≥ yRange lines ∧ b.2.2.1 - b.1 ≥ b.2.2.2 - b.2.1) ∨
      (xRange lines ≤ yRange lines ∧ b.2.2.1 - b.1 ≤ b.2.2.2 - b.2.1)
  · have hA := analyse_lines_eq_pos lines r b hcond
    rw [hA] at hflip ⊢
    set D := max (xRange lines / (b.2.2.1 - b.1)) (yRange lines / (b.2.2.2 - b.2.1)) with hDdef
    have hD : 0 ≤ D := le_trans (div_nonneg hxr hbxpos.le) (le_max_left _ _)
    have hDx : listMax (xValues lines) - listMin (xValues lines) ≤ D * (b.2.2.1 - b.1) := by
      have hm : xRange lines / (b.2.2.1 - b.1) ≤ D := le_max_left _ _
      rw [div_le_iff₀ hbxpos] at hm
      unfold xRange at hm
      exact hm
    have hDy : listMax (yValues lines) - listMin (yValues lines) ≤ D * (b.2.2.2 - b.2.1) := by
      have hm : yRange lines / (b.2.2.2 - b.2.1) ≤ D := le_max_right _ _
      rw [div_le_iff₀ hbypos] at hm
      unfold yRange at hm
      exact hm
    have hxmemb := scale_shift_mem hbx hD hDx hx1 hx2
    have hymemb := scale_shift_mem hby hD hDy hy1 hy2
    cases flip with
    | false => exact ⟨hxmemb.1, hxmemb.2, hymemb.1, hymemb.2⟩
    | true =>
      rcases hflip with hf | hsym
      · simp at hf
      · have hq1 : (transformPoint
            { rotate := false, x_mid := xMid lines, y_mid := yMid lines,
              box_x_mid := (b.1 + b.2.2.1) / 2, box_y_mid := (b.2.1 + b.2.2.2) / 2,
              divider := D } true p₀).1 =
            -((p₀.1 - (listMax (xValues lines) + listMin (xValues lines)) / 2) / D
              + (b.1 + b.2.2.1) / 2) := rfl
        have hq2 : (transformPoint
            { rotate := false, x_mid := xMid lines, y_mid := yMid lines,
              box_x_mid := (b.1 + b.2.2.1) / 2, box_y_mid := (b.2.1 + b.2.2.2) / 2,
              divider := D } true p₀).2 =
            (p₀.2 - (listMax (yValues lines) + listMin (yValues lines)) / 2) / D
              + (b.2.1 + b.2.2.2) / 2 := rfl
        rw [hq1, hq2]
        obtain ⟨ha1, ha2⟩ := hxmemb
        obtain ⟨hb1, hb2⟩ := hymemb
        refine ⟨by linarith, by linarith, hb1, hb2⟩
  · have hA := analyse_lines_eq_neg lines r b hcond
    rw [hA] at hflip ⊢
    set D := max (xRange lines / (b.2.2.2 - b.2.1)) (yRange lines / (b.2.2.1 - b.1)) with hDdef
    have hD : 0 ≤ D := le_trans (div_nonneg hxr hbypos.le) (le_max_left _ _)
    have hDx : listMax (yValues lines) - listMin (yValues lines) ≤ D * (b.2.2.1 - b.1) := by
      have hm : yRange lines / (b.2.2.1 - b.1) ≤ D := le_max_right _ _
      rw [div_le_iff₀ hbxpos] at hm
      unfold yRange at hm
      exact hm
    have hDy : listMax (xValues lines) - listMin (xValues lines) ≤ D * (b.2.2.2 - b.2.1) := by
      have hm : xRange lines / (b.2.2.2 - b.2.1) ≤ D := le_max_left _ _
      rw [div_le_iff₀ hbypos] at hm
      unfold xRange at hm
      exact hm
    have hxmemb := scale_shift_mem hbx hD hDx hy1 hy2
    have hymemb := scale_shift_mem hby hD hDy hx1 hx2
    cases flip with
    | true => exact ⟨hxmemb.1, hxmemb.2, hymemb.1, hymemb.2⟩
    | false =>
      rcases hflip with hf | hsym
      · simp at hf
      · have hq1 : (transformPoint
            { rotate := true, x_mid := yMid lines, y_mid := xMid lines,
              box_x_mid := (b.1 + b.2.2.1) / 2, box_y_mid := (b.2.1 + b.2.2.2) / 2,
              divider := D } false p₀).1 =
            -((p₀.2 - (listMax (yValues lines) + listMin (yValues lines)) / 2) / D
              + (b.1 + b.2.2.1) / 2) := rfl
        have hq2 : (transformPoint
            { rotate := true, x_mid := yMid lines, y_mid := xMid lines,
              box_x_mid := (b.1 + b.2.2.1) / 2, box_y_mid := (b.2.1 + b.2.2.2) / 2,
              divider := D } false p₀).2 =
            (p₀.1 - (listMax (xValues lines) + listMin (xValues lines)) / 2) / D
              + (b.2.1 + b.2.2.2) / 2 := rfl
        rw [hq1, hq2]
        obtain ⟨ha1, ha2⟩ := hxmemb
        obtain ⟨hb1, hb2⟩ := hymemb
        refine ⟨by linarith, by linarith, hb1, hb2⟩

/-- Concrete analysis of the unit-diagonal drawing against the square
bounds `(0, 0, 10, 10)`. -/
theorem analyse_unit_segment :
    analyse_lines (α := ℚ) [[(0, 0), (1, 1)]] false (0, 0, 10, 10) =
      { rotate := false, x_mid := 1 / 2, y_mid := 1 / 2, box_x_mid := 5, box_y_mid := 5,
        divider := 1 / 10 } := by
  have hxr : xRange (α := ℚ) [[(0, 0), (1, 1)]] = 1 := by
    norm_num [xRange, xValues, listMax, listMin]
  have hyr : yRange (α := ℚ) [[(0, 0), (1, 1)]] = 1 := by
    norm_num [yRange, yValues, listMax, listMin]
  have hxm : xMid (α := ℚ) [[(0, 0), (1, 1)]] = 1 / 2 := by
    norm_num [xMid, xValues, listMax, listMin]
  have hym : yMid (α := ℚ) [[(0, 0), (1, 1)]] = 1 / 2 := by
    norm_num [yMid, yValues, listMax, listMin]
  rw [analyse_lines_eq_pos _ _ _ (by rw [hxr, hyr]; norm_num)]
  rw [hxm, hym, hxr, hyr]
  norm_num

/-- Concrete transform of the unit-diagonal drawing with `flip = true`:
the extremal point `(1, 1)` lands at `(-10, 10)`. -/
theorem rotate_and_scale_unit_segment :
    rotate_and_scale_lines (α := ℚ) [[(0, 0), (1, 1)]] false true (0, 0, 10, 10) =
      [[(0, 0), (-10, 10)]] := by
  simp only [rotate_and_scale_lines, analyse_unit_segment]
  simp [transformPoint]
  norm_num

/-- C3 counterexample: with the (x-asymmetric) bounds `(0, 0, 10, 10)`
and `flip = true`, the transformed copy of `[[(0,0),(1,1)]]` contains
`(-10, 10)`, whose x lies outside `[0, 10]` — even though `(1, 1)` was
extremal in the original drawing, refuting the claim for "both values
of the flip argument". -/
theorem rotate_and_scale_escapes_bounds :
    ¬ (∀ line ∈ rotate_and_scale_lines (α := ℚ) [[(0, 0), (1, 1)]] false true (0, 0, 10, 10),
        ∀ p ∈ line, 0 ≤ p.1 ∧ p.1 ≤ 10 ∧ 0 ≤ p.2 ∧ p.2 ≤ 10) := by
  intro hcontra
  have h := hcontra [(0, 0), (-10, 10)]
    (by rw [rotate_and_scale_unit_segment]; exact List.mem_singleton.mpr rfl)
    (-10, 10) (by simp)
  have h1 := h.1
  norm_num at h1

/-- Witness for C3 at the unit-diagonal drawing with `flip = false`
(matching the computed rotation flag). -/
theorem rotate_and_scale_fits_witness :
    ((0 : ℚ) < 10 ∧
      (false = (analyse_lines (α := ℚ) [[(0, 0), (1, 1)]] false (0, 0, 10, 10)).rotate ∨
        (0 : ℚ) + 10 = 0)) ∧
    ∀ line ∈ rotate_and_scale_lines (α := ℚ) [[(0, 0), (1, 1)]] false false (0, 0, 10, 10),
      ∀ p ∈ line, 0 ≤ p.1 ∧ p.1 ≤ 10 ∧ 0 ≤ p.2 ∧ p.2 ≤ 10 := by
  have hrot : false = (analyse_lines (α := ℚ) [[(0, 0), (1, 1)]] false (0, 0, 10, 10)).rotate := by
    rw [analyse_unit_segment]
  refine ⟨⟨by norm_num, Or.inl hrot⟩, ?_⟩
  exact rotate_and_scale_fits [[(0, 0), (1, 1)]] false false (0, 0, 10, 10) (by norm_num)
    (by norm_num) (Or.inl hrot)

end BrachioGraph
